import Mathlib

/-!
Verification of `src/image_fetcher.py`, a batch product-image fetcher.

The Python source is shallowly embedded below: pure helpers
(`safe_filename`, `guess_extension`, `find_column`, the `vqd` token
extraction of `get_vqd`, pathlib's `with_suffix`) become Lean functions on
`String` / `List Char`; the effectful driver (`main`) becomes a pure
function from its inputs and network/operator oracles to an exit code and
a trace of observable events.
-/

namespace ImageFetcher

/-! ### Characters and Python-style string trimming -/

/-- Characters stripped by Python's `str.strip()` (ASCII/Latin-1 part;
Python additionally strips some Unicode space code points, none of which
belong to the allowed filename class below, so the theorems are
unaffected). -/
def isPySpace (c : Char) : Bool :=
  c == ' ' || c == '\t' || c == '\n' || c == '\r' ||
  c == Char.ofNat 11 || c == Char.ofNat 12 ||
  c == Char.ofNat 28 || c == Char.ofNat 29 ||
  c == Char.ofNat 30 || c == Char.ofNat 31 ||
  c == Char.ofNat 133 || c == Char.ofNat 160

/-- `l.strip(chars-satisfying-p)`: drop matching characters from both ends. -/
def stripEnds (p : Char → Bool) (l : List Char) : List Char :=
  ((l.dropWhile p).reverse.dropWhile p).reverse

/-- Python `str.strip()` on a whole string. -/
def pyStrip (s : String) : String :=
  String.mk (stripEnds isPySpace s.data)

/-- The character class `[A-Za-z0-9._-]` of `safe_filename`'s regex. -/
def allowedChar (c : Char) : Bool :=
  ('A' ≤ c && c ≤ 'Z') || ('a' ≤ c && c ≤ 'z') || ('0' ≤ c && c ≤ '9') ||
  c == '.' || c == '_' || c == '-'

/-- `re.sub(r"[^A-Za-z0-9._-]+", "_", ·)`: each maximal run of disallowed
characters becomes a single underscore.  The flag records whether the
previous character was part of a disallowed run. -/
def collapseAux : Bool → List Char → List Char
  | _, [] => []
  | prevBad, c :: rest =>
    if allowedChar c then c :: collapseAux false rest
    else if prevBad then collapseAux true rest
    else '_' :: collapseAux true rest

/-- `safe_filename` (src/image_fetcher.py lines 78-80):
`name = re.sub(r"[^A-Za-z0-9._-]+", "_", name.strip())`;
`return name.strip("_") or "image"`. -/
def safe_filename (s : String) : String :=
  let cleaned := stripEnds (fun c => c == '_') (collapseAux false (stripEnds isPySpace s.data))
  if cleaned.isEmpty then "image" else String.mk cleaned

/-! ### Substring containment (Python's `in` on strings) -/

/-- `needle` is a prefix of `hay` (exact characters). -/
def matchesAt : List Char → List Char → Bool
  | [], _ => true
  | _ :: _, [] => false
  | a :: as, b :: bs => a == b && matchesAt as bs

/-- Python `needle in hay` for strings: substring containment. -/
def subList (needle : List Char) : List Char → Bool
  | [] => needle.isEmpty
  | h :: t => matchesAt needle (h :: t) || subList needle t

/-- Substring containment on `String`s. -/
def containsSub (needle hay : String) : Bool :=
  subList needle.data hay.data

/-! ### `guess_extension` (src/image_fetcher.py lines 83-97) -/

/-- The content-type branch of `guess_extension`: the chain of
`if "jpeg" in content_type: return ".jpg"` (then png, webp, gif) checks. -/
def known_mime_ext (ct : String) : Option String :=
  if containsSub "jpeg" ct then some ".jpg"
  else if containsSub "png" ct then some ".png"
  else if containsSub "webp" ct then some ".webp"
  else if containsSub "gif" ct then some ".gif"
  else none

/-- The alternatives of the regex group `(jpg|jpeg|png|gif|webp)`,
in the regex's order. -/
def extAlternatives : List (List Char) :=
  [['j', 'p', 'g'], ['j', 'p', 'e', 'g'], ['p', 'n', 'g'],
   ['g', 'i', 'f'], ['w', 'e', 'b', 'p']]

/-- Case-insensitive literal match: if lowering `l`'s first characters
yields `pat`, return the remaining characters. -/
def ciDropPat : List Char → List Char → Option (List Char)
  | [], rest => some rest
  | _ :: _, [] => none
  | p :: ps, c :: cs => if c.toLower == p then ciDropPat ps cs else none

/-- The `(?:$|\?)` tail of the URL-extension regex. -/
def tailOk : List Char → Bool
  | [] => true
  | '?' :: _ => true
  | _ => false

/-- Try the regex `\.(jpg|jpeg|png|gif|webp)(?:$|\?)` (IGNORECASE) at one
position; alternatives are tried in the regex's order.  Returns the
lowered text of group 1 on success. -/
def matchExtAt : List Char → Option (List Char)
  | '.' :: rest =>
    extAlternatives.findSome? (fun alt =>
      match ciDropPat alt rest with
      | some rem => if tailOk rem then some alt else none
      | none => none)
  | _ => none

/-- `re.search` for the URL-extension regex: leftmost matching position. -/
def searchExt : List Char → Option (List Char)
  | [] => none
  | c :: rest =>
    match matchExtAt (c :: rest) with
    | some g => some g
    | none => searchExt rest

/-- The URL-suffix branch of `guess_extension`: regex match on the URL,
then `ext = match.group(1).lower()`, `".jpg" if ext == "jpeg" else f".{ext}"`. -/
def urlExt (url : String) : Option String :=
  (searchExt url.data).map (fun ext =>
    if ext == ['j', 'p', 'e', 'g'] then ".jpg" else String.mk ('.' :: ext))

/-- `guess_extension(url, content_type)` (src/image_fetcher.py lines 83-97).
`if content_type:` is Python truthiness: the branch is taken only for a
present, non-empty header. -/
def guess_extension (url : String) (content_type : Option String) : String :=
  let fromCT : Option String :=
    match content_type with
    | some ct => if ct.isEmpty then none else known_mime_ext ct
    | none => none
  match fromCT with
  | some e => e
  | none =>
    match urlExt url with
    | some e => e
    | none => ".jpg"

/-! ### pathlib `with_suffix` and `download_image` (lines 100-106) -/

/-- Index of the last character satisfying `p` (Python `str.rfind`). -/
def rfindIdx (p : Char → Bool) : List Char → Option Nat
  | [] => none
  | c :: rest =>
    match rfindIdx p rest with
    | some i => some (i + 1)
    | none => if p c then some 0 else none

/-- pathlib's `PurePath.suffix` on a final path component:
`i = name.rfind('.')`; the suffix is `name[i:]` when `0 < i < len(name)-1`,
else empty. -/
def pyNameSuffix (name : List Char) : List Char :=
  match rfindIdx (fun c => c == '.') name with
  | some i => if 0 < i && i + 1 < name.length then name.drop i else []
  | none => []

/-- pathlib's `PurePath.with_suffix` on a final path component: the old
suffix (if any) is removed before the new one is appended. -/
def nameWithSuffix (name ext : String) : String :=
  let suf := pyNameSuffix name.data
  if suf.isEmpty then name ++ ext
  else String.mk (name.data.take (name.data.length - suf.length)) ++ ext

/-- A filesystem path as used by `main`/`download_image`:
`args.output_dir / filename` — a parent directory and a final component. -/
structure PyPath where
  parent : String
  name : String
  deriving DecidableEq

/-- The download HTTP response: `raise_for_status` outcome and the
`Content-Type` header.  A network error before any response is modelled
as `ok = false` (both raise, and the driver catches both alike). -/
structure HttpResponse where
  ok : Bool
  contentType : Option String
  deriving DecidableEq

/-- `download_image(url, destination, session)` (lines 100-106): on a
successful response, the file written is
`destination.with_suffix(guess_extension(url, Content-Type))`; on failure
an exception propagates (modelled as `none`). -/
def download_image (url : String) (destination : PyPath) (resp : HttpResponse) :
    Option PyPath :=
  if resp.ok then
    some ⟨destination.parent,
          nameWithSuffix destination.name (guess_extension url resp.contentType)⟩
  else none

/-! ### `find_column` (src/image_fetcher.py lines 27-36) -/

/-- Python `str.lower()` (ASCII part, which is all the headers use). -/
def strLower (s : String) : String :=
  String.mk (s.data.map Char.toLower)

/-- Index of the first list element satisfying `p` (a `for`-loop with an
early `return index`). -/
def firstIdx (p : String → Bool) : List String → Option Nat
  | [] => none
  | h :: t => if p h then some 0 else (firstIdx p t).map (fun i => i + 1)

/-- The first loop of `find_column`:
`for candidate in candidates: if candidate in lowered: return lowered.index(candidate)`.
`lowered.index(c)` is the first position equal to `c`, i.e. `firstIdx (· == c)`. -/
def exact_phase (lowered : List String) : List String → Option Nat
  | [] => none
  | c :: cs =>
    match firstIdx (fun h => h == c) lowered with
    | some i => some i
    | none => exact_phase lowered cs

/-- `any(candidate in header for candidate in candidates)` — the inner loop
of `find_column`'s fallback. -/
def substr_any (candidates : List String) (h : String) : Bool :=
  candidates.any (fun c => containsSub c h)

/-- `find_column(headers, candidates)` (lines 27-36): exact match in
candidate order first, then substring match in header order, else `None`. -/
def find_column (headers candidates : List String) : Option Nat :=
  match exact_phase (headers.map strLower) candidates with
  | some i => some i
  | none => firstIdx (substr_any candidates) (headers.map strLower)

/-- The SKU candidate list of `main` (line 150). -/
def sku_candidates : List String := ["sku", "item sku", "item_sku"]

/-- The name candidate list of `main` (line 151). -/
def name_candidates : List String := ["name", "product name", "product_name", "title"]

/-! ### `get_vqd` token extraction (lines 39-53) -/

/-- A fallible computation, as Python exceptions caught by the driver. -/
inductive Res (α : Type) where
  | ok (val : α)
  | err (msg : String)
  deriving DecidableEq

/-- Try `re.search(r"vqd='([^']+)'", text)` at one position: the literal
`vqd='`, then a non-empty greedy run of non-quote characters, then `'`. -/
def matchVqd1 : List Char → Option (List Char)
  | 'v' :: 'q' :: 'd' :: '=' :: '\'' :: rest =>
    let grp := rest.takeWhile (fun c => c != '\'')
    match rest.drop grp.length with
    | '\'' :: _ => if grp.isEmpty then none else some grp
    | _ => none
  | _ => none

/-- Leftmost match of the first vqd pattern. -/
def searchVqd1 : List Char → Option (List Char)
  | [] => none
  | c :: rest =>
    match matchVqd1 (c :: rest) with
    | some g => some g
    | none => searchVqd1 rest

/-- Try `re.search(r"vqd=([^&]+)&", text)` at one position. -/
def matchVqd2 : List Char → Option (List Char)
  | 'v' :: 'q' :: 'd' :: '=' :: rest =>
    let grp := rest.takeWhile (fun c => c != '&')
    match rest.drop grp.length with
    | '&' :: _ => if grp.isEmpty then none else some grp
    | _ => none
  | _ => none

/-- Leftmost match of the second vqd pattern. -/
def searchVqd2 : List Char → Option (List Char)
  | [] => none
  | c :: rest =>
    match matchVqd2 (c :: rest) with
    | some g => some g
    | none => searchVqd2 rest

/-- `get_vqd` (lines 39-53) applied to the root-page response body: first
pattern, then second pattern, else `RuntimeError`. -/
def get_vqd (body : String) : Res String :=
  match searchVqd1 body.data with
  | some g => Res.ok (String.mk g)
  | none =>
    match searchVqd2 body.data with
    | some g => Res.ok (String.mk g)
    | none => Res.err "Could not find vqd token for search query."

/-! ### The driver (`main`, lines 119-209) -/

/-- A spreadsheet cell value as produced by `openpyxl` (`None`, text,
numbers, booleans; floating-point cells are outside the model — no claim
depends on them). -/
inductive Cell where
  | none
  | str (s : String)
  | int (n : Int)
  | bool (b : Bool)
  deriving DecidableEq

/-- Python truthiness of a cell value, as tested by
`if not sku_value or not name_value:` (line 168). -/
def Cell.truthy : Cell → Bool
  | .none => false
  | .str s => !s.isEmpty
  | .int n => n != 0
  | .bool b => b

/-- Python `str(value)` on a cell value. -/
def Cell.toStr : Cell → String
  | .none => "None"
  | .str s => s
  | .int n => toString n
  | .bool b => if b then "True" else "False"

/-- `row[i] if i < len(row) else None` (lines 166-167). -/
def cellAt (row : List Cell) (i : Nat) : Cell :=
  (row.get? i).getD Cell.none

/-- One image-search result as consumed by the selector loop
(`result.get("image")`, `result.get("title")`, `result.get("url")`). -/
structure SearchResult where
  image : Option String
  title : Option String
  url : Option String
  deriving DecidableEq

/-- Python truthiness of `result.get(...)`: absent or empty is falsy. -/
def truthyStr : Option String → Option String
  | Option.none => Option.none
  | some s => if s.isEmpty then Option.none else some s

/-- The external world seen while processing one row: the provider's
root-page response body, the image endpoint's outcome (a decoded result
list, already taken from `data.get("results", [])`, or a raised
network/JSON error), the operator's parsed yes/no answers in prompt
order, and the HTTP response for each download URL. -/
structure RowEnv where
  rootBody : String
  imageResp : Res (List SearchResult)
  answers : Nat → Bool
  http : String → HttpResponse

/-- `fetch_image_results` (lines 56-75): token retrieval, then the image
query, truncated to `max_results`.  Either failure propagates. -/
def fetch_image_results (env : RowEnv) (max_results : Nat) : Res (List SearchResult) :=
  match get_vqd env.rootBody with
  | Res.err e => Res.err e
  | Res.ok _ =>
    match env.imageResp with
    | Res.err e => Res.err e
    | Res.ok results => Res.ok (results.take max_results)

/-- Observable events of one run, in program order: per-row log lines and
filesystem writes. -/
inductive Event where
  | skipped (rowNum : Nat)
  | searching (rowNum : Nat) (sku : String) (query : String)
  | fetchFailed (sku : String) (msg : String)
  | noResults
  | shown (idx : Nat) (url : String)
  | downloadAttempt (idx : Nat) (url : String)
  | saved (path : String)
  | downloadFailed (url : String)
  | noSelection
  deriving DecidableEq

/-- The selector loop `for index, result in enumerate(results, start=1)`
(lines 187-204): a candidate without a truthy image URL is silently
skipped (no prompt consumed); otherwise the candidate is shown and the
operator's next answer taken; on "y" one download is attempted (its
failure is caught and logged) and the loop breaks with `accepted = True`.
`idx` is the 1-based enumeration counter, `k` counts prompts issued. -/
def reviewAux (outDir sku : String) (env : RowEnv) :
    List SearchResult → Nat → Nat → List Event × Bool
  | [], _, _ => ([], false)
  | r :: rest, idx, k =>
    match truthyStr r.image with
    | Option.none => reviewAux outDir sku env rest (idx + 1) k
    | some url =>
      if env.answers k then
        (Event.shown idx url :: Event.downloadAttempt idx url ::
          (match download_image url ⟨outDir, safe_filename sku⟩ (env.http url) with
           | some p => [Event.saved (p.parent ++ "/" ++ p.name)]
           | Option.none => [Event.downloadFailed url]), true)
      else
        (Event.shown idx url :: (reviewAux outDir sku env rest (idx + 1) (k + 1)).1,
         (reviewAux outDir sku env rest (idx + 1) (k + 1)).2)

/-- The selector loop started as in `main`: enumeration from 1, no prompt
consumed yet. -/
def review (outDir sku : String) (env : RowEnv) (results : List SearchResult) :
    List Event × Bool :=
  reviewAux outDir sku env results 1 0

/-- One iteration of the row loop (lines 165-207). -/
def processRow (outDir : String) (maxResults skuIdx nameIdx : Nat) (env : RowEnv)
    (rowNum : Nat) (row : List Cell) : List Event :=
  let sku_value := cellAt row skuIdx
  let name_value := cellAt row nameIdx
  if !sku_value.truthy || !name_value.truthy then
    [Event.skipped rowNum]
  else
    let sku := pyStrip sku_value.toStr
    let name := pyStrip name_value.toStr
    Event.searching rowNum sku name ::
      match fetch_image_results env maxResults with
      | Res.err e => [Event.fetchFailed sku e]
      | Res.ok results =>
        if results.isEmpty then [Event.noResults]
        else
          (review outDir sku env results).1 ++
            (if (review outDir sku env results).2 then [] else [Event.noSelection])

/-- `for row_number, row in enumerate(rows, start=2)`: the row loop. -/
def runRows (outDir : String) (maxResults skuIdx nameIdx : Nat) (env : Nat → RowEnv) :
    List (List Cell) → Nat → List Event
  | [], _ => []
  | row :: rest, n =>
    processRow outDir maxResults skuIdx nameIdx (env n) n row ++
      runRows outDir maxResults skuIdx nameIdx env rest (n + 1)

/-- The run configuration `main` reads before the loop: whether
`args.input.exists()`, and the loaded header list and data rows. -/
structure Config where
  inputExists : Bool
  headers : List String
  rows : List (List Cell)

/-- `main` (lines 119-209): exit code and the run's event trace.
Returns 1 when the input file is missing or a required column is
unresolved; otherwise runs the row loop (numbering from 2) and returns 0. -/
def mainRun (cfg : Config) (outDir : String) (maxResults : Nat) (env : Nat → RowEnv) :
    Nat × List Event :=
  if cfg.inputExists = false then (1, [])
  else
    match find_column cfg.headers sku_candidates, find_column cfg.headers name_candidates with
    | some si, some ni => (0, runRows outDir maxResults si ni env cfg.rows 2)
    | _, _ => (1, [])

/-! ### Trace observations -/

/-- The URLs the selector can offer: results with a truthy image URL, in
order. -/
def shownUrls (results : List SearchResult) : List String :=
  results.filterMap (fun r => truthyStr r.image)

/-- Is this event a download attempt? -/
def isDownloadAttempt : Event → Bool
  | Event.downloadAttempt _ _ => true
  | _ => false

/-- Is this event a shown candidate? -/
def isShown : Event → Bool
  | Event.shown _ _ => true
  | _ => false

/-- Number of download attempts in a trace. -/
def countDownloads (evs : List Event) : Nat :=
  (evs.filter isDownloadAttempt).length

/-- Number of candidates shown in a trace. -/
def countShown (evs : List Event) : Nat :=
  (evs.filter isShown).length

/-- Control-flow view of a trace: download outcomes (`saved` /
`downloadFailed`) erased. -/
def controlView (evs : List Event) : List Event :=
  evs.filter (fun e =>
    match e with
    | Event.saved _ => false
    | Event.downloadFailed _ => false
    | _ => true)

/-- The events emitted by the selector loop when every prompt is answered
"n": each candidate with a truthy image URL is shown, nothing else. -/
def shownEvents : List SearchResult → Nat → List Event
  | [], _ => []
  | r :: rest, idx =>
    match truthyStr r.image with
    | Option.none => shownEvents rest (idx + 1)
    | some url => Event.shown idx url :: shownEvents rest (idx + 1)

/-- The shape of `safe_filename`'s output: non-empty, only characters of
the allowed class, no leading or trailing underscore. -/
def Sanitized (l : List Char) : Prop :=
  l ≠ [] ∧ (∀ c ∈ l, allowedChar c = true) ∧
    l.head? ≠ some '_' ∧ l.getLast? ≠ some '_'

/-! ### Concrete environments for closed instances -/

/-- An inert row environment: a root page without a token, no results,
an operator answering "n", failing downloads. -/
def stubEnv : RowEnv :=
  ⟨"hello world", Res.ok [], fun _ => false, fun _ => ⟨false, none⟩⟩

/-- Two candidates; the operator rejects the first prompt and accepts the
second; downloads succeed with a png content type. -/
def acceptSecondEnv : RowEnv :=
  ⟨"vqd='tok'",
   Res.ok [⟨some "http://a", some "A", none⟩, ⟨some "http://b", none, none⟩],
   fun j => decide (j = 1),
   fun _ => ⟨true, some "image/png"⟩⟩

/-- One candidate; the operator accepts immediately; the download fails. -/
def failDownloadEnv : RowEnv :=
  ⟨"vqd='tok'",
   Res.ok [⟨some "http://a", none, none⟩, ⟨some "http://b", none, none⟩],
   fun _ => true,
   fun _ => ⟨false, none⟩⟩

/-! ### Supporting lemmas: trimming and collapsing -/

theorem mem_dropWhile {p : Char → Bool} {l : List Char} {a : Char}
    (h : a ∈ l.dropWhile p) : a ∈ l := by
  induction l with
  | nil => simp at h
  | cons c t ih =>
    by_cases hc : p c
    · rw [List.dropWhile_cons, if_pos hc] at h
      exact List.mem_cons_of_mem _ (ih h)
    · rwa [List.dropWhile_cons, if_neg hc] at h

theorem head?_dropWhile {p : Char → Bool} {l : List Char} {a : Char}
    (h : (l.dropWhile p).head? = some a) : p a = false := by
  induction l with
  | nil => simp at h
  | cons c t ih =>
    by_cases hc : p c
    · rw [List.dropWhile_cons, if_pos hc] at h
      exact ih h
    · rw [List.dropWhile_cons, if_neg hc] at h
      simp only [List.head?_cons, Option.some.injEq] at h
      subst h
      exact Bool.not_eq_true _ ▸ eq_false_of_ne_true hc

theorem getLast?_dropWhile {p : Char → Bool} {l : List Char}
    (h : l.dropWhile p ≠ []) : (l.dropWhile p).getLast? = l.getLast? := by
  induction l with
  | nil => simp at h
  | cons c t ih =>
    by_cases hc : p c
    · rw [List.dropWhile_cons, if_pos hc] at h ⊢
      cases t with
      | nil => exact absurd rfl h
      | cons d u =>
        rw [ih h, List.getLast?_cons_cons]
    · rw [List.dropWhile_cons, if_neg hc]

theorem dropWhile_eq_self_of_head {p : Char → Bool} {l : List Char}
    (h : ∀ a, l.head? = some a → p a = false) : l.dropWhile p = l := by
  cases l with
  | nil => rfl
  | cons c t =>
    rw [List.dropWhile_cons, h c rfl]
    simp

theorem dropWhile_eq_self_of_all {p : Char → Bool} {l : List Char}
    (h : ∀ a ∈ l, p a = false) : l.dropWhile p = l := by
  cases l with
  | nil => rfl
  | cons c t =>
    rw [List.dropWhile_cons, h c (List.mem_cons_self c t)]
    simp

theorem mem_stripEnds {p : Char → Bool} {l : List Char} {a : Char}
    (h : a ∈ stripEnds p l) : a ∈ l := by
  unfold stripEnds at h
  rw [List.mem_reverse] at h
  have h2 := mem_dropWhile h
  rw [List.mem_reverse] at h2
  exact mem_dropWhile h2

theorem getLast?_stripEnds {p : Char → Bool} {l : List Char} {a : Char}
    (h : (stripEnds p l).getLast? = some a) : p a = false := by
  unfold stripEnds at h
  rw [List.getLast?_reverse] at h
  exact head?_dropWhile h

theorem head?_stripEnds {p : Char → Bool} {l : List Char} {a : Char}
    (h : (stripEnds p l).head? = some a) : p a = false := by
  unfold stripEnds at h
  rw [List.head?_reverse] at h
  have hne : (l.dropWhile p).reverse.dropWhile p ≠ [] := by
    intro hnil
    rw [hnil] at h
    simp at h
  rw [getLast?_dropWhile hne, List.getLast?_reverse] at h
  exact head?_dropWhile h

theorem stripEnds_eq_self_of_all {p : Char → Bool} {l : List Char}
    (h : ∀ a ∈ l, p a = false) : stripEnds p l = l := by
  unfold stripEnds
  rw [dropWhile_eq_self_of_all h,
    dropWhile_eq_self_of_all (fun a ha => h a (List.mem_reverse.mp ha)),
    List.reverse_reverse]

theorem stripEnds_eq_self_of_ends {p : Char → Bool} {l : List Char}
    (h1 : ∀ a, l.head? = some a → p a = false)
    (h2 : ∀ a, l.getLast? = some a → p a = false) : stripEnds p l = l := by
  unfold stripEnds
  rw [dropWhile_eq_self_of_head h1,
    dropWhile_eq_self_of_head (fun a ha => h2 a (by rwa [List.head?_reverse] at ha)),
    List.reverse_reverse]

theorem mem_collapseAux {l : List Char} {b : Bool} {c : Char}
    (h : c ∈ collapseAux b l) : allowedChar c = true := by
  induction l generalizing b with
  | nil => simp [collapseAux] at h
  | cons d t ih =>
    rw [collapseAux] at h
    by_cases hd : allowedChar d
    · rw [if_pos hd] at h
      rcases List.mem_cons.mp h with rfl | h2
      · exact hd
      · exact ih h2
    · rw [if_neg hd] at h
      by_cases hb : b
      · rw [hb, if_pos rfl] at h
        exact ih h
      · rw [eq_false_of_ne_true hb] at h
        simp only [Bool.false_eq_true, if_false] at h
        rcases List.mem_cons.mp h with rfl | h2
        · decide
        · exact ih h2

theorem collapseAux_eq_self {l : List Char}
    (h : ∀ c ∈ l, allowedChar c = true) : collapseAux false l = l := by
  induction l with
  | nil => rfl
  | cons d t ih =>
    rw [collapseAux, if_pos (h d (List.mem_cons_self d t)),
      ih (fun c hc => h c (List.mem_cons_of_mem _ hc))]

theorem allowed_not_pySpace {c : Char} (h : allowedChar c = true) :
    isPySpace c = false := by
  by_contra hc
  rw [Bool.not_eq_false] at hc
  unfold isPySpace at hc
  simp only [Bool.or_eq_true, beq_iff_eq] at hc
  rcases hc with
    (((((((((((rfl | rfl) | rfl) | rfl) | rfl) | rfl) | rfl) | rfl) | rfl) | rfl) | rfl) | rfl) <;>
    exact absurd h (by decide)

theorem sanitized_safe_filename (s : String) : Sanitized (safe_filename s).data := by
  show Sanitized (if (stripEnds (fun c => c == '_')
      (collapseAux false (stripEnds isPySpace s.data))).isEmpty then "image"
    else String.mk (stripEnds (fun c => c == '_')
      (collapseAux false (stripEnds isPySpace s.data)))).data
  by_cases hemp : (stripEnds (fun c => c == '_')
      (collapseAux false (stripEnds isPySpace s.data))).isEmpty
  · rw [if_pos hemp]
    unfold Sanitized
    decide
  · rw [if_neg hemp]
    refine ⟨List.isEmpty_iff.not.mp hemp, ?_, ?_, ?_⟩
    · intro c hc
      exact mem_collapseAux (mem_stripEnds hc)
    · intro hh
      simpa using head?_stripEnds hh
    · intro hh
      simpa using getLast?_stripEnds hh

theorem safe_filename_of_sanitized {l : List Char} (h : Sanitized l) :
    safe_filename (String.mk l) = String.mk l := by
  obtain ⟨hne, hall, hhead, hlast⟩ := h
  show (if (stripEnds (fun c => c == '_')
      (collapseAux false (stripEnds isPySpace l))).isEmpty then "image"
    else String.mk (stripEnds (fun c => c == '_')
      (collapseAux false (stripEnds isPySpace l)))) = String.mk l
  rw [stripEnds_eq_self_of_all (fun a ha => allowed_not_pySpace (hall a ha)),
    collapseAux_eq_self hall,
    stripEnds_eq_self_of_ends
      (fun a ha => by
        rcases eq_or_ne a '_' with rfl | hne2
        · exact absurd ha hhead
        · exact beq_eq_false_iff_ne.mpr hne2)
      (fun a ha => by
        rcases eq_or_ne a '_' with rfl | hne2
        · exact absurd ha hlast
        · exact beq_eq_false_iff_ne.mpr hne2)]
  rw [if_neg (by simpa [List.isEmpty_iff] using hne)]

theorem rfindIdx_eq_none {p : Char → Bool} {l : List Char}
    (h : ∀ c ∈ l, p c = false) : rfindIdx p l = none := by
  induction l with
  | nil => rfl
  | cons c t ih =>
    rw [rfindIdx, ih (fun d hd => h d (List.mem_cons_of_mem _ hd)),
      h c (List.mem_cons_self c t)]
    rfl

theorem nameWithSuffix_of_no_dot (name ext : String)
    (h : '.' ∉ name.data) : nameWithSuffix name ext = name ++ ext := by
  have hs : pyNameSuffix name.data = [] := by
    unfold pyNameSuffix
    rw [rfindIdx_eq_none (fun c hc => by
      rcases eq_or_ne c '.' with rfl | hne
      · exact absurd hc h
      · exact beq_eq_false_iff_ne.mpr hne)]
  show (if (pyNameSuffix name.data).isEmpty then name ++ ext
    else String.mk (name.data.take (name.data.length - (pyNameSuffix name.data).length)) ++ ext)
    = name ++ ext
  rw [hs]
  rfl

/-! ### The claims -/

/-- C4: filename sanitization is idempotent — for every string `x`,
`safe_filename (safe_filename x) = safe_filename x`; SKU `A/B C*D`
sanitizes to `A_B_C_D`, and an input sanitizing to empty yields the
literal `"image"`. -/
theorem C4_sanitize_idempotent :
    (∀ x : String, safe_filename (safe_filename x) = safe_filename x) ∧
    safe_filename "A/B C*D" = "A_B_C_D" ∧ safe_filename "***" = "image" :=
  ⟨fun x => safe_filename_of_sanitized (sanitized_safe_filename x), by decide, by decide⟩

/-- C1, counterexample to the claim as stated: for SKU `ABC.123` with a
jpeg response, the written file's final component is `ABC.jpg` — pathlib's
`with_suffix` replaces the pre-existing suffix `.123` — not the sanitized
SKU concatenated with the inferred extension (`ABC.123.jpg`). -/
theorem C1_counterexample :
    download_image "http://x/a" ⟨"downloaded_images", safe_filename "ABC.123"⟩
        ⟨true, some "image/jpeg"⟩
      = some ⟨"downloaded_images", "ABC.jpg"⟩ ∧
    safe_filename "ABC.123" ++ guess_extension "http://x/a" (some "image/jpeg")
      = "ABC.123.jpg" ∧
    ("ABC.jpg" : String) ≠ "ABC.123.jpg" := by
  decide

/-- C1 (amended): for every accepted product whose download succeeds,
exactly one file is created, inside the output directory, and its final
component is the sanitized SKU with any pre-existing dot-suffix replaced
by the inferred extension (pathlib `with_suffix` semantics); whenever the
sanitized SKU contains no `'.'`, the final component is exactly
`safe_filename sku ++ ext`. -/
theorem C1_written_filename (outputDir sku url : String) (resp : HttpResponse)
    (hok : resp.ok = true) :
    download_image url ⟨outputDir, safe_filename sku⟩ resp
      = some ⟨outputDir,
          nameWithSuffix (safe_filename sku) (guess_extension url resp.contentType)⟩ ∧
    ('.' ∉ (safe_filename sku).data →
      download_image url ⟨outputDir, safe_filename sku⟩ resp
        = some ⟨outputDir, safe_filename sku ++ guess_extension url resp.contentType⟩) :=
  ⟨by simp [download_image, hok],
   fun hdot => by simp [download_image, hok, nameWithSuffix_of_no_dot _ _ hdot]⟩

theorem C1_witness :
    (⟨true, some "image/jpeg"⟩ : HttpResponse).ok = true ∧
    '.' ∉ (safe_filename "A/B C*D").data ∧
    download_image "http://x/img" ⟨"downloaded_images", safe_filename "A/B C*D"⟩
        ⟨true, some "image/jpeg"⟩
      = some ⟨"downloaded_images", "A_B_C_D.jpg"⟩ :=
  ⟨rfl, by decide,
    ((C1_written_filename "downloaded_images" "A/B C*D" "http://x/img"
        ⟨true, some "image/jpeg"⟩ rfl).2 (by decide)).trans (by decide)⟩

/-- C3: extension inference precedence — a non-empty content-type
containing a known image MIME substring determines the extension;
otherwise a trailing extension matched in the URL determines it;
otherwise the result is `.jpg`; with the three concrete examples. -/
theorem C3_extension_precedence :
    (∀ (url ct e : String), ct.isEmpty = false → known_mime_ext ct = some e →
      guess_extension url (some ct) = e) ∧
    (∀ (url : String) (cto : Option String) (e : String),
      (∀ ct, cto = some ct → ct.isEmpty = true ∨ known_mime_ext ct = none) →
      urlExt url = some e → guess_extension url cto = e) ∧
    (∀ (url : String) (cto : Option String),
      (∀ ct, cto = some ct → ct.isEmpty = true ∨ known_mime_ext ct = none) →
      urlExt url = none → guess_extension url cto = ".jpg") ∧
    guess_extension "http://x/img?id=1" (some "image/png") = ".png" ∧
    guess_extension "http://x/img.webp" none = ".webp" ∧
    guess_extension "http://x/img" none = ".jpg" := by
  refine ⟨?_, ?_, ?_, by decide, by decide, by decide⟩
  · intro url ct e hne hk
    simp [guess_extension, hne, hk]
  · intro url cto e hct hu
    cases cto with
    | none => simp [guess_extension, hu]
    | some ct =>
      by_cases hemp : ct.isEmpty
      · simp [guess_extension, hemp, hu]
      · rcases hct ct rfl with h1 | h1
        · exact absurd h1 hemp
        · simp [guess_extension, hemp, h1, hu]
  · intro url cto hct hu
    cases cto with
    | none => simp [guess_extension, hu]
    | some ct =>
      by_cases hemp : ct.isEmpty
      · simp [guess_extension, hemp, hu]
      · rcases hct ct rfl with h1 | h1
        · exact absurd h1 hemp
        · simp [guess_extension, hemp, h1, hu]

theorem C3_witness :
    String.isEmpty "image/gif" = false ∧ known_mime_ext "image/gif" = some ".gif" ∧
    guess_extension "u" (some "image/gif") = ".gif" :=
  ⟨by decide, by decide,
    C3_extension_precedence.1 "u" "image/gif" ".gif" (by decide) (by decide)⟩

/-! ### Supporting lemmas: column resolution -/

theorem firstIdx_eq_some_iff {p : String → Bool} {l : List String} {i : Nat} :
    firstIdx p l = some i ↔
      ((∃ a, l.get? i = some a ∧ p a = true) ∧
        ∀ j < i, ∀ b, l.get? j = some b → p b = false) := by
  induction l generalizing i with
  | nil => simp [firstIdx]
  | cons h t ih =>
    by_cases hp : p h
    · rw [firstIdx, if_pos hp]
      constructor
      · intro h0
        injection h0 with h0
        subst h0
        exact ⟨⟨h, rfl, hp⟩, fun j hj => absurd hj (Nat.not_lt_zero j)⟩
      · rintro ⟨⟨a, ha, hpa⟩, hmin⟩
        cases i with
        | zero => rfl
        | succ n =>
          have hf := hmin 0 (Nat.succ_pos n) h rfl
          rw [hf] at hp
          exact absurd hp (by decide)
    · rw [firstIdx, if_neg hp]
      constructor
      · intro hm
        obtain ⟨n, hn, hi⟩ : ∃ n, firstIdx p t = some n ∧ n + 1 = i := by
          cases hft : firstIdx p t with
          | none => rw [hft] at hm; simp at hm
          | some n =>
            rw [hft] at hm
            simp only [Option.map_some'] at hm
            injection hm with hm
            exact ⟨n, rfl, hm⟩
        subst hi
        obtain ⟨⟨a, ha, hpa⟩, hmin⟩ := ih.mp hn
        refine ⟨⟨a, by simpa using ha, hpa⟩, ?_⟩
        intro j hj b hb
        cases j with
        | zero =>
          simp only [List.get?_cons_zero, Option.some.injEq] at hb
          subst hb
          exact eq_false_of_ne_true hp
        | succ m => exact hmin m (Nat.lt_of_succ_lt_succ hj) b (by simpa using hb)
      · rintro ⟨⟨a, ha, hpa⟩, hmin⟩
        cases i with
        | zero =>
          simp only [List.get?_cons_zero, Option.some.injEq] at ha
          subst ha
          exact absurd hpa (by simpa using hp)
        | succ n =>
          have hft : firstIdx p t = some n := ih.mpr ⟨⟨a, by simpa using ha, hpa⟩,
            fun j hj b hb => hmin (j + 1) (Nat.succ_lt_succ hj) b (by simpa using hb)⟩
          rw [hft]
          rfl

theorem firstIdx_eq_none_iff {p : String → Bool} {l : List String} :
    firstIdx p l = none ↔ ∀ a ∈ l, p a = false := by
  induction l with
  | nil => simp [firstIdx]
  | cons h t ih =>
    by_cases hp : p h
    · rw [firstIdx, if_pos hp]
      simp [hp]
    · rw [firstIdx, if_neg hp]
      simp [Option.map_eq_none', ih, eq_false_of_ne_true hp]

theorem exact_phase_eq_of_first {lowered : List String} {candidates : List String}
    {p : Nat} {c : String}
    (hp : candidates.get? p = some c)
    (hc : c ∈ lowered)
    (hmin : ∀ q c', q < p → candidates.get? q = some c' → c' ∉ lowered) :
    exact_phase lowered candidates = firstIdx (fun h => h == c) lowered := by
  induction candidates generalizing p with
  | nil => simp at hp
  | cons c0 cs ih =>
    cases p with
    | zero =>
      simp only [List.get?_cons_zero, Option.some.injEq] at hp
      subst hp
      rw [exact_phase]
      cases hf : firstIdx (fun h => h == c0) lowered with
      | none =>
        exfalso
        have := firstIdx_eq_none_iff.mp hf c0 hc
        simp at this
      | some i => rfl
    | succ n =>
      have h0 : c0 ∉ lowered := hmin 0 c0 (Nat.succ_pos n) rfl
      have hf : firstIdx (fun h => h == c0) lowered = none :=
        firstIdx_eq_none_iff.mpr (fun a ha => by
          rcases eq_or_ne a c0 with rfl | hne
          · exact absurd ha h0
          · exact beq_eq_false_iff_ne.mpr hne)
      rw [exact_phase, hf]
      exact ih (by simpa using hp)
        (fun q c' hq hc' => hmin (q + 1) c' (Nat.succ_lt_succ hq) (by simpa using hc'))

theorem exact_phase_eq_none {lowered : List String} {candidates : List String}
    (h : ∀ c ∈ candidates, c ∉ lowered) : exact_phase lowered candidates = none := by
  induction candidates with
  | nil => rfl
  | cons c0 cs ih =>
    have hf : firstIdx (fun x => x == c0) lowered = none :=
      firstIdx_eq_none_iff.mpr (fun a ha => by
        rcases eq_or_ne a c0 with hac | hne
        · exact absurd (hac ▸ ha) (h c0 (List.mem_cons_self c0 cs))
        · exact beq_eq_false_iff_ne.mpr hne)
    rw [exact_phase, hf]
    exact ih (fun c hc => h c (List.mem_cons_of_mem _ hc))

theorem find_column_exact {headers candidates : List String} {p : Nat} {c : String}
    (hp : candidates.get? p = some c)
    (hc : c ∈ headers.map strLower)
    (hmin : ∀ q c', q < p → candidates.get? q = some c' → c' ∉ headers.map strLower) :
    ∃ i, find_column headers candidates = some i ∧
      (headers.map strLower).get? i = some c ∧
      ∀ j < i, (headers.map strLower).get? j ≠ some c := by
  have he := exact_phase_eq_of_first hp hc hmin
  cases hf : firstIdx (fun h => h == c) (headers.map strLower) with
  | none =>
    exfalso
    have := firstIdx_eq_none_iff.mp hf c hc
    simp at this
  | some i =>
    obtain ⟨⟨a, ha, hpa⟩, hmin2⟩ := firstIdx_eq_some_iff.mp hf
    refine ⟨i, ?_, ?_, ?_⟩
    · unfold find_column
      rw [he, hf]
    · rw [ha, eq_of_beq hpa]
    · intro j hj hget
      have := hmin2 j hj c hget
      simp at this

/-- C2: the column resolver first tries exact equality of each lower-cased
candidate against the lower-cased headers in candidate-list order (first
matching candidate wins, at the first header position equal to it); only
if no exact match exists does it fall back to substring containment
scanned in header order (first header containing any candidate wins); it
returns "not found" otherwise.  In particular, headers containing exact
(case-insensitive) "sku" and "name" columns resolve to those headers'
indices regardless of position. -/
theorem C2_find_column :
    (∀ (headers candidates : List String) (p : Nat) (c : String),
      candidates.get? p = some c →
      c ∈ headers.map strLower →
      (∀ q c', q < p → candidates.get? q = some c' → c' ∉ headers.map strLower) →
      ∃ i, find_column headers candidates = some i ∧
        (headers.map strLower).get? i = some c ∧
        ∀ j < i, (headers.map strLower).get? j ≠ some c) ∧
    (∀ headers candidates : List String,
      (∀ c ∈ candidates, c ∉ headers.map strLower) →
      (∀ i, find_column headers candidates = some i ↔
        ((∃ h, (headers.map strLower).get? i = some h ∧ substr_any candidates h = true) ∧
          ∀ j < i, ∀ h, (headers.map strLower).get? j = some h →
            substr_any candidates h = false)) ∧
      (find_column headers candidates = none ↔
        ∀ h ∈ headers.map strLower, substr_any candidates h = false)) ∧
    (∀ headers : List String,
      (∃ h ∈ headers, strLower h = "sku") →
      (∃ h ∈ headers, strLower h = "name") →
      ∃ i j, find_column headers sku_candidates = some i ∧
        find_column headers name_candidates = some j ∧
        (headers.map strLower).get? i = some "sku" ∧
        (headers.map strLower).get? j = some "name") := by
  refine ⟨?_, ?_, ?_⟩
  · intro headers candidates p c hp hc hmin
    exact find_column_exact hp hc hmin
  · intro headers candidates hnone
    have he : exact_phase (headers.map strLower) candidates = none := exact_phase_eq_none hnone
    have hfc : find_column headers candidates
        = firstIdx (substr_any candidates) (headers.map strLower) := by
      unfold find_column
      rw [he]
    rw [hfc]
    exact ⟨fun i => firstIdx_eq_some_iff, firstIdx_eq_none_iff⟩
  · intro headers hsku hname
    obtain ⟨hs, hsmem, hseq⟩ := hsku
    obtain ⟨hn, hnmem, hneq⟩ := hname
    have hskuMem : "sku" ∈ headers.map strLower := List.mem_map.mpr ⟨hs, hsmem, hseq⟩
    have hnameMem : "name" ∈ headers.map strLower := List.mem_map.mpr ⟨hn, hnmem, hneq⟩
    obtain ⟨i, hi1, hi2, _⟩ := find_column_exact
      (show sku_candidates.get? 0 = some "sku" from rfl) hskuMem
      (fun q c' hq _ => absurd hq (Nat.not_lt_zero q))
    obtain ⟨j, hj1, hj2, _⟩ := find_column_exact
      (show name_candidates.get? 0 = some "name" from rfl) hnameMem
      (fun q c' hq _ => absurd hq (Nat.not_lt_zero q))
    exact ⟨i, j, hi1, hj1, hi2, hj2⟩

theorem C2_witness :
    (∃ h ∈ ["Name", "SKU"], strLower h = "sku") ∧
    (∃ h ∈ ["Name", "SKU"], strLower h = "name") ∧
    ∃ i j, find_column ["Name", "SKU"] sku_candidates = some i ∧
      find_column ["Name", "SKU"] name_candidates = some j ∧
      (["Name", "SKU"].map strLower).get? i = some "sku" ∧
      (["Name", "SKU"].map strLower).get? j = some "name" :=
  ⟨by decide, by decide,
    C2_find_column.2.2 ["Name", "SKU"] (by decide) (by decide)⟩

/-! ### Supporting lemmas: the driver -/

theorem processRow_skip {outDir : String} {maxR skuIdx nameIdx : Nat} {env : RowEnv}
    {rowNum : Nat} {row : List Cell}
    (h : (cellAt row skuIdx).truthy = false ∨ (cellAt row nameIdx).truthy = false) :
    processRow outDir maxR skuIdx nameIdx env rowNum row = [Event.skipped rowNum] := by
  have hcond : (!(cellAt row skuIdx).truthy || !(cellAt row nameIdx).truthy) = true := by
    rcases h with h | h <;> simp [h]
  unfold processRow
  simp only [hcond, if_true]

/-- C5: a row whose SKU field or name field is falsy (empty or absent) is
skipped — its whole trace is the skip log line — and in particular no
search request is issued for that row. -/
theorem C5_skip_invalid_row (outDir : String) (maxR skuIdx nameIdx : Nat)
    (env : RowEnv) (rowNum : Nat) (row : List Cell)
    (h : (cellAt row skuIdx).truthy = false ∨ (cellAt row nameIdx).truthy = false) :
    processRow outDir maxR skuIdx nameIdx env rowNum row = [Event.skipped rowNum] ∧
    ∀ r s q, Event.searching r s q ∉ processRow outDir maxR skuIdx nameIdx env rowNum row := by
  have hskip : processRow outDir maxR skuIdx nameIdx env rowNum row
      = [Event.skipped rowNum] := processRow_skip h
  refine ⟨hskip, fun r s q hmem => ?_⟩
  rw [hskip] at hmem
  simp at hmem

theorem C5_witness :
    (cellAt [Cell.str "ABC-123", Cell.str ""] 1).truthy = false ∧
    processRow "downloaded_images" 5 0 1 stubEnv 2 [Cell.str "ABC-123", Cell.str ""]
      = [Event.skipped 2] :=
  ⟨by decide,
    (C5_skip_invalid_row "downloaded_images" 5 0 1 stubEnv 2
      [Cell.str "ABC-123", Cell.str ""] (Or.inr (by decide))).1⟩

/-- C10: a present but falsy SKU cell — the number 0 or the boolean False
— is treated like an empty or absent field: the row is skipped and no
search issued, although `str(value)` would render as the non-empty string
"0" (resp. "False") and would otherwise be a usable SKU. -/
theorem C10_falsy_present_cells (outDir : String) (maxR : Nat) (env : RowEnv)
    (rowNum : Nat) (rest : List Cell) :
    processRow outDir maxR 0 1 env rowNum (Cell.int 0 :: Cell.str "Widget" :: rest)
      = [Event.skipped rowNum] ∧
    processRow outDir maxR 0 1 env rowNum (Cell.bool false :: Cell.str "Widget" :: rest)
      = [Event.skipped rowNum] ∧
    Cell.toStr (Cell.int 0) = "0" ∧ (Cell.toStr (Cell.int 0)).isEmpty = false ∧
    Cell.toStr (Cell.bool false) = "False" ∧
    (Cell.toStr (Cell.bool false)).isEmpty = false := by
  refine ⟨processRow_skip (Or.inl ?_), processRow_skip (Or.inl ?_),
    by decide, by decide, by decide, by decide⟩ <;> rfl

/-- C7: the exit code is 1 exactly when the input file does not exist or a
required column (SKU or name) cannot be resolved, and 0 on completion of
the row loop in every other case — whatever the per-row outcomes are. -/
theorem C7_exit_codes (cfg : Config) (outDir : String) (maxR : Nat) (env : Nat → RowEnv) :
    ((mainRun cfg outDir maxR env).1 = 1 ↔
      (cfg.inputExists = false ∨
        find_column cfg.headers sku_candidates = none ∨
        find_column cfg.headers name_candidates = none)) ∧
    ((mainRun cfg outDir maxR env).1 = 0 ↔
      (cfg.inputExists = true ∧
        (∃ i, find_column cfg.headers sku_candidates = some i) ∧
        (∃ j, find_column cfg.headers name_candidates = some j))) := by
  unfold mainRun
  by_cases hin : cfg.inputExists = false
  · simp [hin]
  · rw [Bool.not_eq_false] at hin
    cases hs : find_column cfg.headers sku_candidates <;>
      cases hn : find_column cfg.headers name_candidates <;>
        simp [hin, hs, hn]

/-! ### Supporting lemmas: the selector loop -/

theorem reviewAux_skip {outDir sku : String} {env : RowEnv} {r : SearchResult}
    {rest : List SearchResult} {idx k : Nat}
    (htr : truthyStr r.image = none) :
    reviewAux outDir sku env (r :: rest) idx k
      = reviewAux outDir sku env rest (idx + 1) k := by
  rw [reviewAux, htr]

theorem reviewAux_accept {outDir sku : String} {env : RowEnv} {r : SearchResult}
    {rest : List SearchResult} {idx k : Nat} {url : String}
    (htr : truthyStr r.image = some url) (ha : env.answers k = true) :
    reviewAux outDir sku env (r :: rest) idx k
      = (Event.shown idx url :: Event.downloadAttempt idx url ::
          (match download_image url ⟨outDir, safe_filename sku⟩ (env.http url) with
           | some p => [Event.saved (p.parent ++ "/" ++ p.name)]
           | Option.none => [Event.downloadFailed url]), true) := by
  rw [reviewAux, htr, ha]
  rfl

theorem reviewAux_reject {outDir sku : String} {env : RowEnv} {r : SearchResult}
    {rest : List SearchResult} {idx k : Nat} {url : String}
    (htr : truthyStr r.image = some url) (ha : env.answers k = false) :
    reviewAux outDir sku env (r :: rest) idx k
      = (Event.shown idx url :: (reviewAux outDir sku env rest (idx + 1) (k + 1)).1,
         (reviewAux outDir sku env rest (idx + 1) (k + 1)).2) := by
  rw [reviewAux, htr, ha]
  rfl

theorem countDownloads_cons_shown (i : Nat) (u : String) (l : List Event) :
    countDownloads (Event.shown i u :: l) = countDownloads l := rfl

theorem countDownloads_cons_attempt (i : Nat) (u : String) (l : List Event) :
    countDownloads (Event.downloadAttempt i u :: l) = countDownloads l + 1 := rfl

theorem countDownloads_cons_searching (r : Nat) (s q : String) (l : List Event) :
    countDownloads (Event.searching r s q :: l) = countDownloads l := rfl

theorem countDownloads_append (l1 l2 : List Event) :
    countDownloads (l1 ++ l2) = countDownloads l1 + countDownloads l2 := by
  unfold countDownloads
  rw [List.filter_append, List.length_append]

theorem countShown_cons_shown (i : Nat) (u : String) (l : List Event) :
    countShown (Event.shown i u :: l) = countShown l + 1 := rfl

theorem controlView_cons_shown (i : Nat) (u : String) (l : List Event) :
    controlView (Event.shown i u :: l) = Event.shown i u :: controlView l := rfl

theorem controlView_cons_searching (r : Nat) (s q : String) (l : List Event) :
    controlView (Event.searching r s q :: l) = Event.searching r s q :: controlView l := rfl

theorem reviewAux_all_false {outDir sku : String} {env : RowEnv}
    (hans : ∀ j, env.answers j = false) :
    ∀ (results : List SearchResult) (idx k : Nat),
      reviewAux outDir sku env results idx k = (shownEvents results idx, false) := by
  intro results
  induction results with
  | nil => intro idx k; rfl
  | cons r rest ih =>
    intro idx k
    cases htr : truthyStr r.image with
    | none =>
      rw [reviewAux_skip htr, shownEvents, htr]
      exact ih (idx + 1) k
    | some url =>
      rw [reviewAux_reject htr (hans k), shownEvents, htr, ih (idx + 1) (k + 1)]

theorem mem_shownEvents {results : List SearchResult} {idx : Nat} {e : Event}
    (h : e ∈ shownEvents results idx) : ∃ i u, e = Event.shown i u := by
  induction results generalizing idx with
  | nil => simp [shownEvents] at h
  | cons r rest ih =>
    rw [shownEvents] at h
    cases htr : truthyStr r.image with
    | none =>
      rw [htr] at h
      exact ih h
    | some url =>
      rw [htr] at h
      rcases List.mem_cons.mp h with h1 | h2
      · exact ⟨idx, url, h1⟩
      · exact ih h2

theorem countDownloads_shownEvents (results : List SearchResult) :
    ∀ idx : Nat, countDownloads (shownEvents results idx) = 0 := by
  induction results with
  | nil => intro idx; rfl
  | cons r rest ih =>
    intro idx
    rw [shownEvents]
    cases htr : truthyStr r.image with
    | none => exact ih (idx + 1)
    | some url =>
      show countDownloads (Event.shown idx url :: shownEvents rest (idx + 1)) = 0
      rw [countDownloads_cons_shown]
      exact ih (idx + 1)

theorem countShown_shownEvents (results : List SearchResult) :
    ∀ idx : Nat, countShown (shownEvents results idx) = (shownUrls results).length := by
  induction results with
  | nil => intro idx; rfl
  | cons r rest ih =>
    intro idx
    rw [shownEvents]
    cases htr : truthyStr r.image with
    | none =>
      show countShown (shownEvents rest (idx + 1)) = (shownUrls (r :: rest)).length
      rw [ih (idx + 1)]
      simp [shownUrls, List.filterMap_cons, htr]
    | some url =>
      show countShown (Event.shown idx url :: shownEvents rest (idx + 1))
        = (shownUrls (r :: rest)).length
      rw [countShown_cons_shown, ih (idx + 1)]
      simp [shownUrls, List.filterMap_cons, htr]

theorem mem_reviewAux_shape {outDir sku : String} {env : RowEnv} :
    ∀ (results : List SearchResult) (idx k : Nat) {e : Event},
      e ∈ (reviewAux outDir sku env results idx k).1 →
      (∃ i u, e = Event.shown i u) ∨ (∃ i u, e = Event.downloadAttempt i u) ∨
        (∃ p, e = Event.saved p) ∨ (∃ u, e = Event.downloadFailed u) := by
  intro results
  induction results with
  | nil => intro idx k e h; simp [reviewAux] at h
  | cons r rest ih =>
    intro idx k e h
    cases htr : truthyStr r.image with
    | none =>
      rw [reviewAux_skip htr] at h
      exact ih (idx + 1) k h
    | some url =>
      by_cases ha : env.answers k
      · rw [reviewAux_accept htr ha] at h
        rcases List.mem_cons.mp h with h1 | h1
        · exact Or.inl ⟨idx, url, h1⟩
        rcases List.mem_cons.mp h1 with h2 | h2
        · exact Or.inr (Or.inl ⟨idx, url, h2⟩)
        cases hdl : download_image url ⟨outDir, safe_filename sku⟩ (env.http url) with
        | some p =>
          rw [hdl] at h2
          rcases List.mem_cons.mp h2 with h3 | h3
          · exact Or.inr (Or.inr (Or.inl ⟨p.parent ++ "/" ++ p.name, h3⟩))
          · simp at h3
        | none =>
          rw [hdl] at h2
          rcases List.mem_cons.mp h2 with h3 | h3
          · exact Or.inr (Or.inr (Or.inr ⟨url, h3⟩))
          · simp at h3
      · rw [reviewAux_reject htr (eq_false_of_ne_true ha)] at h
        rcases List.mem_cons.mp h with h1 | h1
        · exact Or.inl ⟨idx, url, h1⟩
        · exact ih (idx + 1) (k + 1) h1

theorem downloadAttempt_mem_acc {outDir sku : String} {env : RowEnv} :
    ∀ (results : List SearchResult) (idx k : Nat) {i : Nat} {u : String},
      Event.downloadAttempt i u ∈ (reviewAux outDir sku env results idx k).1 →
      (reviewAux outDir sku env results idx k).2 = true := by
  intro results
  induction results with
  | nil => intro idx k i u h; simp [reviewAux] at h
  | cons r rest ih =>
    intro idx k i u h
    cases htr : truthyStr r.image with
    | none =>
      rw [reviewAux_skip htr] at h ⊢
      exact ih (idx + 1) k h
    | some url =>
      by_cases ha : env.answers k
      · rw [reviewAux_accept htr ha]
      · rw [reviewAux_reject htr (eq_false_of_ne_true ha)] at h ⊢
        rcases List.mem_cons.mp h with h1 | h1
        · exact Event.noConfusion h1
        · exact ih (idx + 1) (k + 1) h1

theorem countDownloads_reviewAux_le_one {outDir sku : String} {env : RowEnv} :
    ∀ (results : List SearchResult) (idx k : Nat),
      countDownloads (reviewAux outDir sku env results idx k).1 ≤ 1 := by
  intro results
  induction results with
  | nil => intro idx k; exact Nat.zero_le 1
  | cons r rest ih =>
    intro idx k
    cases htr : truthyStr r.image with
    | none =>
      rw [reviewAux_skip htr]
      exact ih (idx + 1) k
    | some url =>
      by_cases ha : env.answers k
      · rw [reviewAux_accept htr ha]
        cases download_image url ⟨outDir, safe_filename sku⟩ (env.http url) with
        | some p => exact Nat.le_refl 1
        | none => exact Nat.le_refl 1
      · rw [reviewAux_reject htr (eq_false_of_ne_true ha)]
        show countDownloads (Event.shown idx url ::
          (reviewAux outDir sku env rest (idx + 1) (k + 1)).1) ≤ 1
        rw [countDownloads_cons_shown]
        exact ih (idx + 1) (k + 1)

theorem accept_trace_props (outDir sku url : String) (env : RowEnv) (idx : Nat) :
    countDownloads (Event.shown idx url :: Event.downloadAttempt idx url ::
      (match download_image url ⟨outDir, safe_filename sku⟩ (env.http url) with
       | some p => [Event.saved (p.parent ++ "/" ++ p.name)]
       | Option.none => [Event.downloadFailed url])) = 1 ∧
    countShown (Event.shown idx url :: Event.downloadAttempt idx url ::
      (match download_image url ⟨outDir, safe_filename sku⟩ (env.http url) with
       | some p => [Event.saved (p.parent ++ "/" ++ p.name)]
       | Option.none => [Event.downloadFailed url])) = 1 ∧
    Event.downloadAttempt idx url ∈ (Event.shown idx url :: Event.downloadAttempt idx url ::
      (match download_image url ⟨outDir, safe_filename sku⟩ (env.http url) with
       | some p => [Event.saved (p.parent ++ "/" ++ p.name)]
       | Option.none => [Event.downloadFailed url])) := by
  cases download_image url ⟨outDir, safe_filename sku⟩ (env.http url) with
  | some p => exact ⟨rfl, rfl, by simp⟩
  | none => exact ⟨rfl, rfl, by simp⟩

theorem reviewAux_select {outDir sku : String} {env : RowEnv} :
    ∀ (results : List SearchResult) (idx k K : Nat),
      (∀ j, env.answers j = decide (j = k + K)) →
      K < (shownUrls results).length →
      ∃ i u, (shownUrls results).get? K = some u ∧
        (reviewAux outDir sku env results idx k).2 = true ∧
        countDownloads (reviewAux outDir sku env results idx k).1 = 1 ∧
        Event.downloadAttempt i u ∈ (reviewAux outDir sku env results idx k).1 ∧
        countShown (reviewAux outDir sku env results idx k).1 = K + 1 := by
  intro results
  induction results with
  | nil =>
    intro idx k K hans hK
    simp [shownUrls] at hK
  | cons r rest ih =>
    intro idx k K hans hK
    cases htr : truthyStr r.image with
    | none =>
      have hsu : shownUrls (r :: rest) = shownUrls rest := by
        simp [shownUrls, List.filterMap_cons, htr]
      rw [hsu] at hK
      rw [reviewAux_skip htr, hsu]
      exact ih (idx + 1) k K hans hK
    | some url =>
      have hsu : shownUrls (r :: rest) = url :: shownUrls rest := by
        simp [shownUrls, List.filterMap_cons, htr]
      cases K with
      | zero =>
        have ha : env.answers k = true := by
          rw [hans k]
          simp
        rw [reviewAux_accept htr ha, hsu]
        obtain ⟨hd, hs, hm⟩ := accept_trace_props outDir sku url env idx
        exact ⟨idx, url, rfl, rfl, hd, hm, hs⟩
      | succ K2 =>
        have ha : env.answers k = false := by
          rw [hans k]
          exact decide_eq_false (by omega)
        have hans2 : ∀ j, env.answers j = decide (j = (k + 1) + K2) := by
          intro j
          rw [hans j, show k + (K2 + 1) = (k + 1) + K2 from by omega]
        have hK2 : K2 < (shownUrls rest).length := by
          rw [hsu, List.length_cons] at hK
          exact Nat.lt_of_succ_lt_succ hK
        obtain ⟨i, u, h1, h2, h3, h4, h5⟩ := ih (idx + 1) (k + 1) K2 hans2 hK2
        rw [reviewAux_reject htr ha, hsu]
        refine ⟨i, u, by simpa using h1, h2, ?_, ?_, ?_⟩
        · show countDownloads (Event.shown idx url ::
            (reviewAux outDir sku env rest (idx + 1) (k + 1)).1) = 1
          rw [countDownloads_cons_shown]
          exact h3
        · exact List.mem_cons_of_mem _ h4
        · show countShown (Event.shown idx url ::
            (reviewAux outDir sku env rest (idx + 1) (k + 1)).1) = K2 + 1 + 1
          rw [countShown_cons_shown, h5]

theorem processRow_valid {outDir : String} {maxR si ni : Nat} {env : RowEnv}
    {rowNum : Nat} {row : List Cell}
    (h1 : (cellAt row si).truthy = true) (h2 : (cellAt row ni).truthy = true) :
    processRow outDir maxR si ni env rowNum row
      = Event.searching rowNum (pyStrip (cellAt row si).toStr)
          (pyStrip (cellAt row ni).toStr) ::
        (match fetch_image_results env maxR with
         | Res.err e => [Event.fetchFailed (pyStrip (cellAt row si).toStr) e]
         | Res.ok results =>
           if results.isEmpty then [Event.noResults]
           else (review outDir (pyStrip (cellAt row si).toStr) env results).1 ++
             (if (review outDir (pyStrip (cellAt row si).toStr) env results).2 then []
              else [Event.noSelection])) := by
  unfold processRow
  simp only [h1, h2, Bool.not_true, Bool.or_self, Bool.false_eq_true, if_false]

theorem processRow_fetch_err {outDir : String} {maxR si ni : Nat} {env : RowEnv}
    {rowNum : Nat} {row : List Cell} {msg : String}
    (h1 : (cellAt row si).truthy = true) (h2 : (cellAt row ni).truthy = true)
    (hf : fetch_image_results env maxR = Res.err msg) :
    processRow outDir maxR si ni env rowNum row
      = [Event.searching rowNum (pyStrip (cellAt row si).toStr)
           (pyStrip (cellAt row ni).toStr),
         Event.fetchFailed (pyStrip (cellAt row si).toStr) msg] := by
  rw [processRow_valid h1 h2, hf]

theorem processRow_results {outDir : String} {maxR si ni : Nat} {env : RowEnv}
    {rowNum : Nat} {row : List Cell} {results : List SearchResult}
    (h1 : (cellAt row si).truthy = true) (h2 : (cellAt row ni).truthy = true)
    (hf : fetch_image_results env maxR = Res.ok results)
    (hne : results.isEmpty = false) :
    processRow outDir maxR si ni env rowNum row
      = Event.searching rowNum (pyStrip (cellAt row si).toStr)
          (pyStrip (cellAt row ni).toStr) ::
        (review outDir (pyStrip (cellAt row si).toStr) env results).1 ++
        (if (review outDir (pyStrip (cellAt row si).toStr) env results).2 then []
         else [Event.noSelection]) := by
  rw [processRow_valid h1 h2, hf]
  show Event.searching rowNum (pyStrip (cellAt row si).toStr)
      (pyStrip (cellAt row ni).toStr) ::
    (if results.isEmpty then [Event.noResults]
     else (review outDir (pyStrip (cellAt row si).toStr) env results).1 ++
       (if (review outDir (pyStrip (cellAt row si).toStr) env results).2 then []
        else [Event.noSelection])) = _
  rw [hne]
  rfl

/-- C6: the selector stops scanning at the first acceptance — if the
operator answers "n" to the first K shown candidates and "y" to the next,
exactly one download is attempted, for the (K+1)-th candidate carrying an
image URL, and no further candidates are shown (K+1 shown in total); if
every prompt is answered "n" (candidates lacking an image URL being
silently skipped), the product is recorded as "no selection", with no
download attempted and no error. -/
theorem C6_selector_stops :
    (∀ (outDir sku : String) (env : RowEnv) (results : List SearchResult) (K : Nat),
      (∀ j, env.answers j = decide (j = K)) →
      K < (shownUrls results).length →
      ∃ i u, (shownUrls results).get? K = some u ∧
        (review outDir sku env results).2 = true ∧
        countDownloads (review outDir sku env results).1 = 1 ∧
        Event.downloadAttempt i u ∈ (review outDir sku env results).1 ∧
        countShown (review outDir sku env results).1 = K + 1) ∧
    (∀ (outDir : String) (maxR si ni : Nat) (env : RowEnv) (rowNum : Nat)
        (row : List Cell) (results : List SearchResult),
      (∀ j, env.answers j = false) →
      (cellAt row si).truthy = true →
      (cellAt row ni).truthy = true →
      fetch_image_results env maxR = Res.ok results →
      results.isEmpty = false →
      Event.noSelection ∈ processRow outDir maxR si ni env rowNum row ∧
      countDownloads (processRow outDir maxR si ni env rowNum row) = 0 ∧
      (∀ s m, Event.fetchFailed s m ∉ processRow outDir maxR si ni env rowNum row) ∧
      (∀ u, Event.downloadFailed u ∉ processRow outDir maxR si ni env rowNum row)) := by
  constructor
  · intro outDir sku env results K hans hK
    exact reviewAux_select results 1 0 K
      (fun j => by rw [hans j, Nat.zero_add]) hK
  · intro outDir maxR si ni env rowNum row results hans h1 h2 hf hne
    have hrev : review outDir (pyStrip (cellAt row si).toStr) env results
        = (shownEvents results 1, false) := reviewAux_all_false hans results 1 0
    have htr : processRow outDir maxR si ni env rowNum row
        = Event.searching rowNum (pyStrip (cellAt row si).toStr)
            (pyStrip (cellAt row ni).toStr) ::
          shownEvents results 1 ++ [Event.noSelection] := by
      rw [processRow_results h1 h2 hf hne, hrev]
      rfl
    rw [htr]
    refine ⟨by simp, ?_, ?_, ?_⟩
    · rw [show Event.searching rowNum (pyStrip (cellAt row si).toStr)
            (pyStrip (cellAt row ni).toStr) :: shownEvents results 1 ++ [Event.noSelection]
          = Event.searching rowNum (pyStrip (cellAt row si).toStr)
            (pyStrip (cellAt row ni).toStr) :: (shownEvents results 1 ++ [Event.noSelection])
          from rfl,
        countDownloads_cons_searching, countDownloads_append,
        countDownloads_shownEvents results 1]
      rfl
    · intro s m hmem
      rcases List.mem_cons.mp hmem with h | h
      · exact Event.noConfusion h
      rcases List.mem_append.mp h with h | h
      · obtain ⟨i, u, heq⟩ := mem_shownEvents h
        exact Event.noConfusion heq
      · simp at h
    · intro u hmem
      rcases List.mem_cons.mp hmem with h | h
      · exact Event.noConfusion h
      rcases List.mem_append.mp h with h | h
      · obtain ⟨i, u2, heq⟩ := mem_shownEvents h
        exact Event.noConfusion heq
      · simp at h

theorem C6_witness :
    (∀ j, acceptSecondEnv.answers j = decide (j = 1)) ∧
    (1 < (shownUrls [⟨some "http://a", some "A", none⟩,
      ⟨some "http://b", none, none⟩]).length) ∧
    ∃ i u, (shownUrls [⟨some "http://a", some "A", none⟩,
        ⟨some "http://b", none, none⟩]).get? 1 = some u ∧
      (review "d" "S1" acceptSecondEnv [⟨some "http://a", some "A", none⟩,
        ⟨some "http://b", none, none⟩]).2 = true ∧
      countDownloads (review "d" "S1" acceptSecondEnv [⟨some "http://a", some "A", none⟩,
        ⟨some "http://b", none, none⟩]).1 = 1 ∧
      Event.downloadAttempt i u ∈ (review "d" "S1" acceptSecondEnv
        [⟨some "http://a", some "A", none⟩, ⟨some "http://b", none, none⟩]).1 ∧
      countShown (review "d" "S1" acceptSecondEnv [⟨some "http://a", some "A", none⟩,
        ⟨some "http://b", none, none⟩]).1 = 1 + 1 :=
  ⟨fun j => rfl, by decide,
    C6_selector_stops.1 "d" "S1" acceptSecondEnv
      [⟨some "http://a", some "A", none⟩, ⟨some "http://b", none, none⟩] 1
      (fun j => rfl) (by decide)⟩

theorem controlView_append (l1 l2 : List Event) :
    controlView (l1 ++ l2) = controlView l1 ++ controlView l2 := by
  unfold controlView
  rw [List.filter_append]

theorem fetch_image_results_congr {env env2 : RowEnv}
    (hr : env.rootBody = env2.rootBody) (hi : env.imageResp = env2.imageResp)
    (maxR : Nat) :
    fetch_image_results env maxR = fetch_image_results env2 maxR := by
  unfold fetch_image_results
  rw [hr, hi]

theorem processRow_noResults {outDir : String} {maxR si ni : Nat} {env : RowEnv}
    {rowNum : Nat} {row : List Cell} {results : List SearchResult}
    (h1 : (cellAt row si).truthy = true) (h2 : (cellAt row ni).truthy = true)
    (hf : fetch_image_results env maxR = Res.ok results)
    (he : results.isEmpty = true) :
    processRow outDir maxR si ni env rowNum row
      = [Event.searching rowNum (pyStrip (cellAt row si).toStr)
           (pyStrip (cellAt row ni).toStr), Event.noResults] := by
  rw [processRow_valid h1 h2, hf]
  show Event.searching rowNum (pyStrip (cellAt row si).toStr)
      (pyStrip (cellAt row ni).toStr) ::
    (if results.isEmpty then [Event.noResults]
     else (review outDir (pyStrip (cellAt row si).toStr) env results).1 ++
       (if (review outDir (pyStrip (cellAt row si).toStr) env results).2 then []
        else [Event.noSelection])) = _
  rw [he]
  rfl

theorem reviewAux_http_indep {outDir sku : String} {env env2 : RowEnv}
    (hans : env.answers = env2.answers) :
    ∀ (results : List SearchResult) (idx k : Nat),
      controlView (reviewAux outDir sku env results idx k).1
        = controlView (reviewAux outDir sku env2 results idx k).1 ∧
      (reviewAux outDir sku env results idx k).2
        = (reviewAux outDir sku env2 results idx k).2 := by
  intro results
  induction results with
  | nil => intro idx k; exact ⟨rfl, rfl⟩
  | cons r rest ih =>
    intro idx k
    cases htr : truthyStr r.image with
    | none =>
      rw [reviewAux_skip htr, reviewAux_skip htr]
      exact ih (idx + 1) k
    | some url =>
      by_cases ha : env.answers k
      · have ha2 : env2.answers k = true := by
          rw [← hans]
          exact ha
        rw [reviewAux_accept htr ha, reviewAux_accept htr ha2]
        constructor
        · cases download_image url ⟨outDir, safe_filename sku⟩ (env.http url) with
          | some p =>
            cases download_image url ⟨outDir, safe_filename sku⟩ (env2.http url) with
            | some q => rfl
            | none => rfl
          | none =>
            cases download_image url ⟨outDir, safe_filename sku⟩ (env2.http url) with
            | some q => rfl
            | none => rfl
        · rfl
      · have haf : env.answers k = false := eq_false_of_ne_true ha
        have ha2 : env2.answers k = false := by
          rw [← hans]
          exact haf
        rw [reviewAux_reject htr haf, reviewAux_reject htr ha2]
        obtain ⟨hc, hb⟩ := ih (idx + 1) (k + 1)
        constructor
        · show controlView (Event.shown idx url ::
              (reviewAux outDir sku env rest (idx + 1) (k + 1)).1)
            = controlView (Event.shown idx url ::
              (reviewAux outDir sku env2 rest (idx + 1) (k + 1)).1)
          rw [controlView_cons_shown, controlView_cons_shown, hc]
        · exact hb

/-- C9: once a candidate is accepted, at most one download attempt is made
for the row and scanning stops even when that download fails — the
control flow (candidates shown, acceptance, "no selection" reporting) is
independent of the download outcome, and a row with a download attempt is
never reported as "No image selected". -/
theorem C9_failed_download_no_fallback (outDir : String) (maxR si ni : Nat)
    (env : RowEnv) (rowNum : Nat) (row : List Cell) :
    countDownloads (processRow outDir maxR si ni env rowNum row) ≤ 1 ∧
    (∀ i u, Event.downloadAttempt i u ∈ processRow outDir maxR si ni env rowNum row →
      Event.noSelection ∉ processRow outDir maxR si ni env rowNum row) ∧
    (∀ env2 : RowEnv, env.rootBody = env2.rootBody → env.imageResp = env2.imageResp →
      env.answers = env2.answers →
      controlView (processRow outDir maxR si ni env rowNum row)
        = controlView (processRow outDir maxR si ni env2 rowNum row)) := by
  by_cases hval : (cellAt row si).truthy = true ∧ (cellAt row ni).truthy = true
  case neg =>
    have hor : (cellAt row si).truthy = false ∨ (cellAt row ni).truthy = false := by
      by_cases hA : (cellAt row si).truthy = true
      · by_cases hB : (cellAt row ni).truthy = true
        · exact absurd ⟨hA, hB⟩ hval
        · exact Or.inr (eq_false_of_ne_true hB)
      · exact Or.inl (eq_false_of_ne_true hA)
    rw [processRow_skip hor]
    refine ⟨Nat.zero_le 1, fun i u hmem => ?_, fun env2 _ _ _ => ?_⟩
    · simp at hmem
    · rw [processRow_skip hor]
  case pos =>
    obtain ⟨h1, h2⟩ := hval
    cases hf : fetch_image_results env maxR with
    | err e =>
      rw [processRow_fetch_err h1 h2 hf]
      refine ⟨Nat.zero_le 1, fun i u hmem => ?_, fun env2 hr hi _ => ?_⟩
      · simp at hmem
      · rw [processRow_fetch_err h1 h2 (by rw [← fetch_image_results_congr hr hi maxR]; exact hf)]
    | ok results =>
      by_cases hemp : results.isEmpty = true
      · rw [processRow_noResults h1 h2 hf hemp]
        refine ⟨Nat.zero_le 1, fun i u hmem => ?_, fun env2 hr hi _ => ?_⟩
        · simp at hmem
        · rw [processRow_noResults h1 h2
            (by rw [← fetch_image_results_congr hr hi maxR]; exact hf) hemp]
      · have hne : results.isEmpty = false := eq_false_of_ne_true hemp
        rw [processRow_results h1 h2 hf hne]
        have hcd : countDownloads (if (review outDir (pyStrip (cellAt row si).toStr)
            env results).2 then ([] : List Event) else [Event.noSelection]) = 0 := by
          by_cases hb : (review outDir (pyStrip (cellAt row si).toStr) env results).2 = true
          · rw [if_pos hb]
            rfl
          · rw [if_neg hb]
            rfl
        refine ⟨?_, ?_, ?_⟩
        · rw [show Event.searching rowNum (pyStrip (cellAt row si).toStr)
                (pyStrip (cellAt row ni).toStr) ::
              (review outDir (pyStrip (cellAt row si).toStr) env results).1 ++
              (if (review outDir (pyStrip (cellAt row si).toStr) env results).2 then []
               else [Event.noSelection])
              = Event.searching rowNum (pyStrip (cellAt row si).toStr)
                (pyStrip (cellAt row ni).toStr) ::
              ((review outDir (pyStrip (cellAt row si).toStr) env results).1 ++
              (if (review outDir (pyStrip (cellAt row si).toStr) env results).2 then []
               else [Event.noSelection])) from rfl,
            countDownloads_cons_searching, countDownloads_append, hcd, Nat.add_zero]
          exact countDownloads_reviewAux_le_one results 1 0
        · intro i u hmem hns
          rcases List.mem_cons.mp hmem with hA | hA
          · exact Event.noConfusion hA
          rcases List.mem_append.mp hA with hB | hB
          · have hacc : (review outDir (pyStrip (cellAt row si).toStr) env results).2
                = true := downloadAttempt_mem_acc results 1 0 hB
            rw [if_pos hacc] at hns
            rcases List.mem_cons.mp hns with hC | hC
            · exact Event.noConfusion hC
            rcases List.mem_append.mp hC with hD | hD
            · rcases mem_reviewAux_shape results 1 0 hD with ⟨a, b, hE⟩ | hE
              · exact Event.noConfusion hE
              rcases hE with ⟨a, b, hE⟩ | hE
              · exact Event.noConfusion hE
              rcases hE with ⟨a, hE⟩ | ⟨a, hE⟩
              · exact Event.noConfusion hE
              · exact Event.noConfusion hE
            · simp at hD
          · by_cases hb : (review outDir (pyStrip (cellAt row si).toStr) env results).2 = true
            · rw [if_pos hb] at hB
              simp at hB
            · rw [if_neg hb] at hB
              simp at hB
        · intro env2 hr hi hans
          have hf2 : fetch_image_results env2 maxR = Res.ok results := by
            rw [← fetch_image_results_congr hr hi maxR]
            exact hf
          rw [processRow_results h1 h2 hf2 hne]
          obtain ⟨hc, hb⟩ := reviewAux_http_indep hans results 1 0
          have hc2 : controlView (review outDir (pyStrip (cellAt row si).toStr)
                env results).1
              = controlView (review outDir (pyStrip (cellAt row si).toStr)
                env2 results).1 := hc
          have hb2 : (review outDir (pyStrip (cellAt row si).toStr) env results).2
              = (review outDir (pyStrip (cellAt row si).toStr) env2 results).2 := hb
          rw [show Event.searching rowNum (pyStrip (cellAt row si).toStr)
                (pyStrip (cellAt row ni).toStr) ::
              (review outDir (pyStrip (cellAt row si).toStr) env results).1 ++
              (if (review outDir (pyStrip (cellAt row si).toStr) env results).2 then []
               else [Event.noSelection])
              = Event.searching rowNum (pyStrip (cellAt row si).toStr)
                (pyStrip (cellAt row ni).toStr) ::
              ((review outDir (pyStrip (cellAt row si).toStr) env results).1 ++
              (if (review outDir (pyStrip (cellAt row si).toStr) env results).2 then []
               else [Event.noSelection])) from rfl,
            show Event.searching rowNum (pyStrip (cellAt row si).toStr)
                (pyStrip (cellAt row ni).toStr) ::
              (review outDir (pyStrip (cellAt row si).toStr) env2 results).1 ++
              (if (review outDir (pyStrip (cellAt row si).toStr) env2 results).2 then []
               else [Event.noSelection])
              = Event.searching rowNum (pyStrip (cellAt row si).toStr)
                (pyStrip (cellAt row ni).toStr) ::
              ((review outDir (pyStrip (cellAt row si).toStr) env2 results).1 ++
              (if (review outDir (pyStrip (cellAt row si).toStr) env2 results).2 then []
               else [Event.noSelection])) from rfl]
          rw [controlView_cons_searching, controlView_cons_searching,
            controlView_append, controlView_append, hc2, hb2]

theorem C9_witness :
    Event.downloadAttempt 1 "http://a" ∈
      processRow "d" 5 0 1 failDownloadEnv 2 [Cell.str "S", Cell.str "W"] ∧
    Event.noSelection ∉
      processRow "d" 5 0 1 failDownloadEnv 2 [Cell.str "S", Cell.str "W"] :=
  ⟨by decide,
    (C9_failed_download_no_fallback "d" 5 0 1 failDownloadEnv 2
      [Cell.str "S", Cell.str "W"]).2.1 1 "http://a" (by decide)⟩

theorem runRows_decomp (outDir : String) (maxR si ni : Nat) (env : Nat → RowEnv) :
    ∀ (rows : List (List Cell)) (n i : Nat) (row : List Cell),
      rows.get? i = some row →
      ∃ pre post, runRows outDir maxR si ni env rows n
        = pre ++ processRow outDir maxR si ni (env (n + i)) (n + i) row ++ post := by
  intro rows
  induction rows with
  | nil =>
    intro n i row h
    simp at h
  | cons r rs ih =>
    intro n i row h
    cases i with
    | zero =>
      simp only [List.get?_cons_zero, Option.some.injEq] at h
      subst h
      refine ⟨[], runRows outDir maxR si ni env rs (n + 1), ?_⟩
      rw [runRows, Nat.add_zero]
      rfl
    | succ m =>
      obtain ⟨pre, post, hp⟩ := ih (n + 1) m row (by simpa using h)
      refine ⟨processRow outDir maxR si ni (env n) n r ++ pre, post, ?_⟩
      rw [runRows, hp, show n + 1 + m = n + (m + 1) from by omega]
      simp [List.append_assoc]

/-- C8: when token extraction fails for a query (neither textual pattern
matches the provider's root-page response), the Search Client's error is
caught by the driver: the row's trace is only the search announcement and
the failed-fetch log, every row of the run is still processed (each row's
trace occurs within the run trace), and the run exits 0 — it is not
terminated. -/
theorem C8_token_failure_recovered :
    (∀ (outDir : String) (maxR si ni : Nat) (env : RowEnv) (rowNum : Nat)
        (row : List Cell) (msg : String),
      get_vqd env.rootBody = Res.err msg →
      (cellAt row si).truthy = true →
      (cellAt row ni).truthy = true →
      processRow outDir maxR si ni env rowNum row
        = [Event.searching rowNum (pyStrip (cellAt row si).toStr)
             (pyStrip (cellAt row ni).toStr),
           Event.fetchFailed (pyStrip (cellAt row si).toStr) msg]) ∧
    (∀ (cfg : Config) (outDir : String) (maxR : Nat) (env : Nat → RowEnv) (si ni : Nat),
      cfg.inputExists = true →
      find_column cfg.headers sku_candidates = some si →
      find_column cfg.headers name_candidates = some ni →
      (mainRun cfg outDir maxR env).1 = 0 ∧
      (∀ i row, cfg.rows.get? i = some row →
        ∃ pre post, (mainRun cfg outDir maxR env).2
          = pre ++ processRow outDir maxR si ni (env (2 + i)) (2 + i) row ++ post)) := by
  constructor
  · intro outDir maxR si ni env rowNum row msg hv h1 h2
    have hf : fetch_image_results env maxR = Res.err msg := by
      unfold fetch_image_results
      rw [hv]
    exact processRow_fetch_err h1 h2 hf
  · intro cfg outDir maxR env si ni hin hsi hni
    have hm : mainRun cfg outDir maxR env
        = (0, runRows outDir maxR si ni env cfg.rows 2) := by
      unfold mainRun
      rw [hin, if_neg (by decide), hsi, hni]
    refine ⟨by rw [hm], fun i row hrow => ?_⟩
    rw [hm]
    exact runRows_decomp outDir maxR si ni env cfg.rows 2 i row hrow

theorem C8_witness :
    get_vqd stubEnv.rootBody = Res.err "Could not find vqd token for search query." ∧
    processRow "d" 5 0 1 stubEnv 2 [Cell.str "ABC-123", Cell.str "Widget"]
      = [Event.searching 2 "ABC-123" "Widget",
         Event.fetchFailed "ABC-123" "Could not find vqd token for search query."] :=
  ⟨by decide,
    (C8_token_failure_recovered.1 "d" 5 0 1 stubEnv 2
      [Cell.str "ABC-123", Cell.str "Widget"]
      "Could not find vqd token for search query."
      (by decide) (by decide) (by decide)).trans (by decide)⟩

end ImageFetcher
